import Mathlib

/-!
Verification of the vinext request-path pipeline: the `normalizePath`
canonicalisation (`packages/vinext/src/server/normalize-path.ts`), the
ReDoS-safe regex gate and middleware matcher
(`packages/vinext/src/server/middleware.ts` and `middleware-codegen.ts`),
the middleware runner's directive interpretation, and the Cloudflare
worker entry guards.

JavaScript strings are modelled as `List Char`; JavaScript `includes` is
contiguous-substring containment (`<:+:`), `startsWith` is `<+:` (or
`take`), `endsWith` is `<:+`.
-/

set_option maxHeartbeats 1000000

namespace Vinext

/-- Characters of a JavaScript string. -/
abbrev JStr := List Char

/-! ### normalize-path.ts -/

/-- Fast-path canonicality test of `normalizePath` (normalize-path.ts lines
25-31): `pathname.length > 1 && pathname[0] === "/" &&
!pathname.includes("//") && !pathname.includes("/./") &&
!pathname.includes("/../") && !pathname.endsWith("/.") &&
!pathname.endsWith("/..")`. -/
def isCanonical (p : JStr) : Bool :=
  decide (1 < p.length) && decide (p.head? = some '/') &&
  !decide (['/', '/'] <:+: p) && !decide (['/', '.', '/'] <:+: p) &&
  !decide (['/', '.', '.', '/'] <:+: p) &&
  !decide (['/', '.'] <:+ p) && !decide (['/', '.', '.'] <:+ p)

/-- JavaScript `pathname.split("/")` with a one-character separator: the chunks
between `/` characters, keeping empty chunks (`"/a/" ↦ ["", "a", ""]`). -/
def splitSlash : JStr → List JStr
  | [] => [[]]
  | c :: cs =>
    if c = '/' then [] :: splitSlash cs
    else
      match splitSlash cs with
      | [] => [[c]]
      | s :: ss => (c :: s) :: ss

/-- Segment-resolution loop of `normalizePath` (normalize-path.ts lines 39-50):
empty and `"."` segments are skipped, `".."` pops the most recently resolved
segment (`resolved.pop()`, a no-op on an empty array), anything else is
pushed.  The accumulator keeps the most recent segment at its head, so `push`
is `cons` and `pop` is `tail`; the final result is reversed into source
order. -/
def resolveSegments (acc : List JStr) : List JStr → List JStr
  | [] => acc.reverse
  | seg :: rest =>
    if seg = [] ∨ seg = ['.'] then resolveSegments acc rest
    else if seg = ['.', '.'] then resolveSegments acc.tail rest
    else resolveSegments (seg :: acc) rest

/-- JavaScript `resolved.join("/")`. -/
def joinSegs : List JStr → JStr
  | [] => []
  | [s] => s
  | s :: rest => s ++ '/' :: joinSegs rest

/-- Slow path of `normalizePath` (normalize-path.ts lines 36-52):
`"/" + pathname.split("/")`-resolution-`join("/")`. -/
def slowPath (p : JStr) : JStr :=
  '/' :: joinSegs (resolveSegments [] (splitSlash p))

/-- Embedding of `normalizePath` (normalize-path.ts lines 21-53). -/
def normalizePath (p : JStr) : JStr :=
  if p = ['/'] ∨ isCanonical p = true then p else slowPath p


/-! ### Canonicality of the normalised output -/

/-- A resolved segment: nonempty, not `"."`, not `".."`, slash-free. -/
def GoodSeg (s : JStr) : Prop :=
  s ≠ [] ∧ s ≠ ['.'] ∧ s ≠ ['.', '.'] ∧ '/' ∉ s

theorem splitSlash_no_slash : ∀ p : JStr, ∀ s ∈ splitSlash p, '/' ∉ s := by
  intro p
  induction p with
  | nil =>
    intro s hs
    simp only [splitSlash, List.mem_singleton] at hs
    subst hs; simp
  | cons c cs ih =>
    intro s hs
    simp only [splitSlash] at hs
    by_cases hc : c = '/'
    · rw [if_pos hc] at hs
      rcases List.mem_cons.mp hs with h | h
      · subst h; simp
      · exact ih s h
    · rw [if_neg hc] at hs
      rcases hsplit : splitSlash cs with _ | ⟨s₀, ss⟩ <;> rw [hsplit] at hs
      · rcases List.mem_singleton.mp hs with rfl
        simp only [List.mem_singleton]
        exact fun h => hc h.symm
      · rcases List.mem_cons.mp hs with h | h
        · subst h
          intro hmem
          rcases List.mem_cons.mp hmem with h' | h'
          · exact hc h'.symm
          · exact ih s₀ (hsplit ▸ List.mem_cons_self s₀ ss) h'
        · exact ih s (hsplit ▸ List.mem_cons_of_mem s₀ h)

theorem resolveSegments_good :
    ∀ segs acc, (∀ s ∈ acc, GoodSeg s) → (∀ s ∈ segs, '/' ∉ s) →
      ∀ s ∈ resolveSegments acc segs, GoodSeg s := by
  intro segs
  induction segs with
  | nil =>
    intro acc hacc _ s hs
    simp only [resolveSegments] at hs
    exact hacc s (List.mem_reverse.mp hs)
  | cons seg rest ih =>
    intro acc hacc hns s hs
    simp only [resolveSegments] at hs
    split at hs
    · exact ih acc hacc (fun t ht => hns t (List.mem_cons_of_mem _ ht)) s hs
    · split at hs
      · exact ih acc.tail (fun t ht => hacc t (List.tail_subset acc ht))
          (fun t ht => hns t (List.mem_cons_of_mem _ ht)) s hs
      · refine ih (seg :: acc) ?_ (fun t ht => hns t (List.mem_cons_of_mem _ ht)) s hs
        intro t ht
        rcases List.mem_cons.mp ht with rfl | ht'
        · rename_i h1 h2
          exact ⟨fun h => h1 (Or.inl h), fun h => h1 (Or.inr h), h2,
            hns t (List.mem_cons_self _ _)⟩
        · exact hacc t ht'

theorem infix_slash_decomp (n' : JStr) :
    ∀ s u : JStr, '/' ∉ s →
      (('/' :: n') <:+: (s ++ '/' :: u) ↔ n' <+: u ∨ ('/' :: n') <:+: u) := by
  intro s
  induction s with
  | nil =>
    intro u _
    rw [List.nil_append, List.infix_cons_iff, List.cons_prefix_cons]
    simp
  | cons c s' ih =>
    intro u hs
    have hc : c ≠ '/' := fun h => hs (h ▸ List.mem_cons_self c s')
    rw [List.cons_append, List.infix_cons_iff, List.cons_prefix_cons]
    have hne : ¬ ('/' = c) := fun h => hc h.symm
    simp only [hne, false_and, false_or]
    exact ih u (fun h => hs (List.mem_cons_of_mem c h))

theorem suffix_slash_decomp (n' : JStr) :
    ∀ s u : JStr, '/' ∉ s →
      (('/' :: n') <:+ (s ++ '/' :: u) ↔ ('/' :: n') <:+ ('/' :: u)) := by
  intro s
  induction s with
  | nil => intro u _; rw [List.nil_append]
  | cons c s' ih =>
    intro u hs
    have hc : c ≠ '/' := fun h => hs (h ▸ List.mem_cons_self c s')
    rw [List.cons_append, List.suffix_cons_iff]
    have hne : ¬ ('/' :: n' = c :: (s' ++ '/' :: u)) := by
      intro h
      injection h with h₁ _
      exact hc h₁.symm
    simp only [hne, false_or]
    exact ih u (fun h => hs (List.mem_cons_of_mem c h))

theorem not_prefSlash {s : JStr} (h : GoodSeg s) (u : JStr) :
    ¬ (['/'] <+: s ++ '/' :: u) := by
  obtain ⟨hne, -, -, hns⟩ := h
  cases s with
  | nil => exact absurd rfl hne
  | cons c s' =>
    rw [List.cons_append, List.cons_prefix_cons]
    rintro ⟨rfl, -⟩
    exact hns (List.mem_cons_self _ _)

theorem not_prefDot {s : JStr} (h : GoodSeg s) (u : JStr) :
    ¬ (['.', '/'] <+: s ++ '/' :: u) := by
  obtain ⟨hne, hdot, -, hns⟩ := h
  cases s with
  | nil => exact absurd rfl hne
  | cons c s' =>
    rw [List.cons_append, List.cons_prefix_cons]
    rintro ⟨rfl, hpre⟩
    cases s' with
    | nil => exact hdot rfl
    | cons c₂ s₂ =>
      rw [List.cons_append, List.cons_prefix_cons] at hpre
      obtain ⟨rfl, -⟩ := hpre
      exact hns (List.mem_cons_of_mem _ (List.mem_cons_self _ _))

theorem not_prefDotDot {s : JStr} (h : GoodSeg s) (u : JStr) :
    ¬ (['.', '.', '/'] <+: s ++ '/' :: u) := by
  obtain ⟨hne, hdot, hdd, hns⟩ := h
  cases s with
  | nil => exact absurd rfl hne
  | cons c s' =>
    rw [List.cons_append, List.cons_prefix_cons]
    rintro ⟨rfl, hpre⟩
    cases s' with
    | nil => exact hdot rfl
    | cons c₂ s₂ =>
      rw [List.cons_append, List.cons_prefix_cons] at hpre
      obtain ⟨rfl, hpre₂⟩ := hpre
      cases s₂ with
      | nil => exact hdd rfl
      | cons c₃ s₃ =>
        rw [List.cons_append, List.cons_prefix_cons] at hpre₂
        obtain ⟨rfl, -⟩ := hpre₂
        exact hns (by simp)

theorem joinSegs_needle_free (n' : JStr) (hne : n' ≠ []) (hsl : '/' ∈ n')
    (hpref : ∀ s u, GoodSeg s → ¬ (n' <+: s ++ '/' :: u)) :
    ∀ segs, (∀ s ∈ segs, GoodSeg s) →
      ¬ (n' <+: joinSegs segs) ∧ ¬ (('/' :: n') <:+: joinSegs segs) := by
  intro segs
  induction segs with
  | nil =>
    intro _
    constructor
    · intro h
      exact hne (List.prefix_nil.mp h)
    · intro h
      exact List.cons_ne_nil _ _ (List.infix_nil.mp h)
  | cons s rest ih =>
    intro hgood
    have hs : GoodSeg s := hgood s (List.mem_cons_self _ _)
    cases rest with
    | nil =>
      constructor
      · intro h
        exact hs.2.2.2 (h.subset hsl)
      · intro h
        exact hs.2.2.2 (h.subset (List.mem_cons_self '/' n'))
    | cons t rest' =>
      have hrest : ∀ x ∈ t :: rest', GoodSeg x :=
        fun x hx => hgood x (List.mem_cons_of_mem s hx)
      obtain ⟨ih1, ih2⟩ := ih hrest
      have hj : joinSegs (s :: t :: rest') = s ++ '/' :: joinSegs (t :: rest') := rfl
      rw [hj]
      constructor
      · exact hpref s _ hs
      · intro h
        rcases (infix_slash_decomp n' s _ hs.2.2.2).mp h with h' | h'
        · exact ih1 h'
        · exact ih2 h'

theorem joinSegs_suffix_free (n' : JStr) (hne : n' ≠ []) (hnosl : '/' ∉ n')
    (hgs : ∀ s, GoodSeg s → s ≠ n') :
    ∀ segs, (∀ s ∈ segs, GoodSeg s) →
      joinSegs segs ≠ n' ∧ ¬ (('/' :: n') <:+ joinSegs segs) := by
  intro segs
  induction segs with
  | nil =>
    intro _
    exact ⟨fun h => hne h.symm, fun h => List.cons_ne_nil _ _ (List.suffix_nil.mp h)⟩
  | cons s rest ih =>
    intro hgood
    have hs : GoodSeg s := hgood s (List.mem_cons_self _ _)
    cases rest with
    | nil =>
      exact ⟨hgs s hs, fun h => hs.2.2.2 (h.subset (List.mem_cons_self '/' n'))⟩
    | cons t rest' =>
      have hrest : ∀ x ∈ t :: rest', GoodSeg x :=
        fun x hx => hgood x (List.mem_cons_of_mem s hx)
      obtain ⟨ih1, ih2⟩ := ih hrest
      have hj : joinSegs (s :: t :: rest') = s ++ '/' :: joinSegs (t :: rest') := rfl
      rw [hj]
      constructor
      · intro h
        have hmem : '/' ∈ s ++ '/' :: joinSegs (t :: rest') := by simp
        rw [h] at hmem
        exact hnosl hmem
      · intro h
        rw [suffix_slash_decomp n' s _ hs.2.2.2] at h
        rcases List.suffix_cons_iff.mp h with h' | h'
        · injection h' with _ h₂
          exact ih1 h₂.symm
        · exact ih2 h'

theorem goodseg_all_slowPath (p : JStr) :
    ∀ s ∈ resolveSegments [] (splitSlash p), GoodSeg s :=
  resolveSegments_good (splitSlash p) [] (by intro s h; cases h) (splitSlash_no_slash p)

theorem joinSegs_cons_ne_nil {s : JStr} (hs : s ≠ []) (rest : List JStr) :
    joinSegs (s :: rest) ≠ [] := by
  cases rest with
  | nil => exact hs
  | cons t r =>
    have hj : joinSegs (s :: t :: r) = s ++ '/' :: joinSegs (t :: r) := rfl
    rw [hj]
    intro h
    exact hs (List.append_eq_nil.mp h).1

theorem slowPath_root_or_canonical (p : JStr) :
    slowPath p = ['/'] ∨ isCanonical (slowPath p) = true := by
  have hgood := goodseg_all_slowPath p
  unfold slowPath
  generalize hsegs : resolveSegments [] (splitSlash p) = segs at hgood ⊢
  cases segs with
  | nil => left; rfl
  | cons s rest =>
    right
    have hs : GoodSeg s := hgood s (List.mem_cons_self _ _)
    have h1 := joinSegs_needle_free ['/'] (by simp) (by simp)
      (fun s u hg => not_prefSlash hg u) (s :: rest) hgood
    have h2 := joinSegs_needle_free ['.', '/'] (by simp) (by simp)
      (fun s u hg => not_prefDot hg u) (s :: rest) hgood
    have h3 := joinSegs_needle_free ['.', '.', '/'] (by simp) (by simp)
      (fun s u hg => not_prefDotDot hg u) (s :: rest) hgood
    have h4 := joinSegs_suffix_free ['.'] (by simp) (by simp)
      (fun s hg => hg.2.1) (s :: rest) hgood
    have h5 := joinSegs_suffix_free ['.', '.'] (by simp) (by simp)
      (fun s hg => hg.2.2.1) (s :: rest) hgood
    have hnn : joinSegs (s :: rest) ≠ [] := joinSegs_cons_ne_nil hs.1 rest
    rw [isCanonical]
    simp only [Bool.and_eq_true, Bool.not_eq_true', decide_eq_true_eq,
      decide_eq_false_iff_not]
    refine ⟨⟨⟨⟨⟨⟨?_, ?_⟩, ?_⟩, ?_⟩, ?_⟩, ?_⟩, ?_⟩
    · have := List.length_pos.mpr hnn
      simp only [List.length_cons]
      omega
    · rfl
    · intro hinf
      rcases List.infix_cons_iff.mp hinf with hp | hi
      · rw [List.cons_prefix_cons] at hp
        exact h1.1 hp.2
      · exact h1.2 hi
    · intro hinf
      rcases List.infix_cons_iff.mp hinf with hp | hi
      · rw [List.cons_prefix_cons] at hp
        exact h2.1 hp.2
      · exact h2.2 hi
    · intro hinf
      rcases List.infix_cons_iff.mp hinf with hp | hi
      · rw [List.cons_prefix_cons] at hp
        exact h3.1 hp.2
      · exact h3.2 hi
    · intro hsuf
      rcases List.suffix_cons_iff.mp hsuf with h' | h'
      · injection h' with _ h₂
        exact h4.1 h₂.symm
      · exact h4.2 h'
    · intro hsuf
      rcases List.suffix_cons_iff.mp hsuf with h' | h'
      · injection h' with _ h₂
        exact h5.1 h₂.symm
      · exact h5.2 h'

theorem normalizePath_of_canonical {q : JStr} (h : isCanonical q = true) :
    normalizePath q = q := by
  unfold normalizePath
  exact if_pos (Or.inr h)

theorem normalizePath_root_or_canonical (p : JStr) :
    normalizePath p = ['/'] ∨ isCanonical (normalizePath p) = true := by
  unfold normalizePath
  split
  · rename_i h
    rcases h with h | h
    · exact Or.inl h
    · exact Or.inr h
  · exact slowPath_root_or_canonical p

theorem normalizePath_idem (p : JStr) :
    normalizePath (normalizePath p) = normalizePath p := by
  rcases normalizePath_root_or_canonical p with h | h
  · rw [h]; decide
  · exact normalizePath_of_canonical h

theorem isCanonical_props {q : JStr} (h : isCanonical q = true) :
    q.head? = some '/' ∧ ¬(['/', '/'] <:+: q) ∧ ¬(['/', '.', '/'] <:+: q) ∧
    ¬(['/', '.', '.', '/'] <:+: q) ∧ ¬(['/', '.'] <:+ q) ∧ ¬(['/', '.', '.'] <:+ q) := by
  rw [isCanonical] at h
  simp only [Bool.and_eq_true, Bool.not_eq_true', decide_eq_true_eq,
    decide_eq_false_iff_not] at h
  tauto

/-- C3: for every pathname containing `//`, `/./`, or `/../`, `normalizePath`
produces a path containing none of these and not ending in `/.` or `/..`;
every normalised path begins with a single leading slash (it starts with `/`
and not with `//`); and `normalizePath` is idempotent on every input. -/
theorem normalizePath_canonical_idem :
    (∀ p : JStr,
      (['/', '/'] <:+: p ∨ ['/', '.', '/'] <:+: p ∨ ['/', '.', '.', '/'] <:+: p) →
      ¬(['/', '/'] <:+: normalizePath p) ∧ ¬(['/', '.', '/'] <:+: normalizePath p) ∧
      ¬(['/', '.', '.', '/'] <:+: normalizePath p) ∧
      ¬(['/', '.'] <:+ normalizePath p) ∧ ¬(['/', '.', '.'] <:+ normalizePath p)) ∧
    (∀ p : JStr, (normalizePath p).head? = some '/' ∧ ¬(['/', '/'] <+: normalizePath p)) ∧
    (∀ p : JStr, normalizePath (normalizePath p) = normalizePath p) := by
  refine ⟨fun p _ => ?_, fun p => ?_, normalizePath_idem⟩
  · rcases normalizePath_root_or_canonical p with h | h
    · rw [h]
      refine ⟨by decide, by decide, by decide, by decide, by decide⟩
    · obtain ⟨-, h2, h3, h4, h5, h6⟩ := isCanonical_props h
      exact ⟨h2, h3, h4, h5, h6⟩
  · rcases normalizePath_root_or_canonical p with h | h
    · rw [h]
      exact ⟨rfl, by decide⟩
    · obtain ⟨h1, h2, -⟩ := isCanonical_props h
      refine ⟨h1, fun hp => h2 ?_⟩
      exact List.IsPrefix.isInfix hp

/-- Witness for `normalizePath_canonical_idem` at the concrete input `"/a//b"`. -/
theorem normalizePath_canonical_idem_witness :
    (['/', '/'] <:+: "/a//b".toList ∨ ['/', '.', '/'] <:+: "/a//b".toList ∨
      ['/', '.', '.', '/'] <:+: "/a//b".toList) ∧
    ¬(['/', '/'] <:+: normalizePath "/a//b".toList) :=
  ⟨by decide, (normalizePath_canonical_idem.1 "/a//b".toList (by decide)).1⟩

/-- C4 (code bug): the input `"/a/"` satisfies the fast-path canonicality
predicate, so `normalizePath` returns it unchanged, but the slow-path
segment-resolution computation on the same input yields `"/a"` — the fast
path is not extensionally equal to the slow path, contradicting the spec
("this is an optimization, not a semantic branch") and the function's own
documentation ("does NOT strip or add trailing slashes"). -/
theorem fastPath_slowPath_disagree :
    isCanonical "/a/".toList = true ∧
    normalizePath "/a/".toList = "/a/".toList ∧
    slowPath "/a/".toList = "/a".toList ∧
    slowPath "/a/".toList ≠ normalizePath "/a/".toList := by
  refine ⟨by decide, by decide, by decide, by decide⟩

/-- C5 (code bug): the non-root input `"/a//b/"` ends in a slash but its
normalisation `"/a/b"` does not — the slow path drops the trailing empty
segment produced by `split("/")`, contradicting the function documentation
("does NOT strip or add trailing slashes").  Additionally `"/.."` does not
end in a slash yet normalises to the root `"/"`, which does. -/
theorem normalizePath_trailing_slash_bug :
    normalizePath "/a//b/".toList = "/a/b".toList ∧
    ("/a//b/".toList).getLast? = some '/' ∧
    ("/a/b".toList).getLast? = some 'b' ∧
    normalizePath "/..".toList = "/".toList := by
  refine ⟨by decide, by decide, by decide, by decide⟩

/-! ### middleware-codegen.ts: the `__isSafeRegex` / `__safeRegExp` scanner -/

/-- JavaScript array read `a[i]`: an out-of-range read yields `undefined`,
which is falsy in the boolean positions where the scanner uses it. -/
def jsGet (a : List Bool) (i : Nat) : Bool :=
  (a[i]?).getD false

/-- JavaScript array write `a[i] = v`: writing past the end extends the array,
and the intervening holes read back as `undefined`, i.e. falsy. -/
def jsSet (a : List Bool) (i : Nat) (v : Bool) : List Bool :=
  if i < a.length then a.set i v
  else a ++ List.replicate (i - a.length) false ++ [v]

/-- Character-class skip of the scanner (middleware-codegen.ts lines 30-38):
advance past the class body, skipping escaped characters, through the closing
`]` (or off the end of the pattern). -/
def skipClass : JStr → JStr
  | [] => []
  | c :: rest =>
    if c = ']' then rest
    else if c = '\\' then
      match rest with
      | [] => []
      | _ :: rest₂ => skipClass rest₂
    else skipClass rest

/-- One-pass scanner of `__isSafeRegex` (middleware-codegen.ts lines 23-82).
`arr` is the JavaScript `quantifierAtDepth` array, `depth` the current paren
depth and `prev` the previously scanned character `pattern[i-1]` (`none` at
the start of the pattern).  The JavaScript while-loop advances `i` by at
least one character per iteration, so it runs at most `pattern.length`
iterations; the loop is driven here by that iteration budget as structural
fuel (the fuel-exhausted fallback `true` is unreachable whenever the fuel is
at least the length of the remaining input). -/
def isSafeRegexFuel : Nat → List Bool → Nat → Option Char → JStr → Bool
  | 0, _, _, _, _ => true
  | _ + 1, _, _, _, [] => true
  | fuel + 1, arr, depth, prev, c :: rest =>
    if c = '\\' then isSafeRegexFuel fuel arr depth rest.head? (rest.drop 1)
    else if c = '[' then isSafeRegexFuel fuel arr depth (some ']') (skipClass rest)
    else if c = '(' then
      isSafeRegexFuel fuel
        (if arr.length ≤ depth + 1 then arr ++ [false] else jsSet arr (depth + 1) false)
        (depth + 1) (some '(') rest
    else if c = ')' then
      if rest.head? = some '+' ∨ rest.head? = some '*' ∨ rest.head? = some '{' then
        if decide (0 < depth) && jsGet arr depth then false
        else
          isSafeRegexFuel fuel
            (if depth - 1 < arr.length then arr.set (depth - 1) true else arr)
            (depth - 1) (some ')') rest
      else isSafeRegexFuel fuel arr (depth - 1) (some ')') rest
    else if c = '+' ∨ c = '*' then
      isSafeRegexFuel fuel (if 0 < depth then jsSet arr depth true else arr) depth
        (some c) rest
    else if c = '?' then
      if prev ≠ some '+' ∧ prev ≠ some '*' ∧ prev ≠ some '?' ∧ prev ≠ some '}' then
        isSafeRegexFuel fuel (if 0 < depth then jsSet arr depth true else arr) depth
          (some '?') rest
      else isSafeRegexFuel fuel arr depth (some '?') rest
    else if c = '{' then
      if (rest.dropWhile (fun d => d.isDigit || d = ',')).head? = some '}' ∧
          rest.takeWhile (fun d => d.isDigit || d = ',') ≠ [] then
        isSafeRegexFuel fuel (if 0 < depth then jsSet arr depth true else arr) depth
          (some '}') ((rest.dropWhile (fun d => d.isDigit || d = ',')).drop 1)
      else isSafeRegexFuel fuel arr depth (some '{') rest
    else isSafeRegexFuel fuel arr depth (some c) rest

/-- Embedding of `__isSafeRegex(pattern)` (middleware-codegen.ts lines 23-82;
`config-matchers.ts`'s `isSafeRegex` is declared by the codegen module to be
the identical single source of truth). -/
def isSafeRegex (pattern : JStr) : Bool :=
  isSafeRegexFuel pattern.length [] 0 none pattern

example : isSafeRegex "(a+)+".toList = false := by decide
example : isSafeRegex "(a+)(b+)".toList = true := by decide
example : isSafeRegex "((a))".toList = true := by decide
example : isSafeRegex "((a)+)+".toList = false := by decide
example : isSafeRegex "(?:/.*)?".toList = true := by decide
example : isSafeRegex "(?:a)+".toList = false := by decide
example : isSafeRegex "^/posts/([^/]+)$".toList = true := by decide
example : isSafeRegex "(a{2})+".toList = false := by decide
example : isSafeRegex "a{2,3}?b".toList = true := by decide
example : isSafeRegex "^(a+)+x$".toList = false := by decide
example : isSafeRegex "[a+]+b".toList = true := by decide

/-! ### A model of the JavaScript regex fragment used by the matcher -/

/-- Atoms of the modelled regular-expression fragment. -/
inductive RAtom where
  | lit (c : Char)
  | dotAny
  | cls (neg : Bool) (cs : List Char)
deriving DecidableEq

/-- Modelled regular expressions: the fragment `new RegExp` is exercised with
by the middleware matcher (literals, `.`, character classes, grouping,
alternation, `*` `+` `?` quantifiers and concatenation). -/
inductive Regex where
  | fail
  | eps
  | atom (a : RAtom)
  | alt (r s : Regex)
  | seq (r s : Regex)
  | star (r : Regex)
deriving DecidableEq

/-- JavaScript line terminators, which `.` does not match. -/
def isLineTerminator (c : Char) : Bool :=
  c = '\n' || c = '\r' || c = Char.ofNat 0x2028 || c = Char.ofNat 0x2029

def atomMatch : RAtom → Char → Bool
  | .lit c, d => c = d
  | .dotAny, d => !isLineTerminator d
  | .cls neg cs, d => if neg then !(cs.contains d) else cs.contains d

def nullable : Regex → Bool
  | .fail => false
  | .eps => true
  | .atom _ => false
  | .alt r s => nullable r || nullable s
  | .seq r s => nullable r && nullable s
  | .star _ => true

def deriv : Regex → Char → Regex
  | .fail, _ => .fail
  | .eps, _ => .fail
  | .atom a, c => if atomMatch a c then .eps else .fail
  | .alt r s, c => .alt (deriv r c) (deriv s c)
  | .seq r s, c =>
    if nullable r then .alt (.seq (deriv r c) s) (deriv s c)
    else .seq (deriv r c) s
  | .star r, c => .seq (deriv r c) (.star r)

/-- Brzozowski-derivative whole-string match: models `re.test` for a regex
constructed from an anchored `^...$` pattern, the only form the middleware
code builds. -/
def rtest (r : Regex) (s : JStr) : Bool :=
  nullable (s.foldl deriv r)

def Regex.plus (r : Regex) : Regex := .seq r (.star r)

def Regex.opt (r : Regex) : Regex := .alt r .eps

/-- Parse a character class `[...]` / `[^...]` with plain member characters
only (no ranges, no escapes — the shape the matcher constructs, e.g. `[^/]`);
anything else is outside the modelled fragment and parses to `none`. -/
def parseClass (l : JStr) : Option (Regex × JStr) :=
  let neg := l.head? = some '^'
  let after := if neg then l.drop 1 else l
  let body := after.takeWhile (fun c => c != ']')
  if body.all (fun c => decide (c ≠ '\\' ∧ c ≠ '-' ∧ c ≠ '[' ∧ c ≠ '^')) ∧ body ≠ [] then
    match after.dropWhile (fun c => c != ']') with
    | ']' :: rest => some (.atom (.cls neg body), rest)
    | _ => none
  else none

/-- Recursive-descent parser for the modelled regex fragment; returns the
parsed expression and the unconsumed remainder, or `none` for any construct
outside the fragment (conservatively modelling `new RegExp` construction
failure).  One unit of structural fuel per consumed character is ample. -/
def parseSeq : Nat → JStr → Option (Regex × JStr)
  | 0, _ => none
  | _ + 1, [] => some (.eps, [])
  | fuel + 1, c :: rest =>
    if c = ')' then some (.eps, c :: rest)
    else if c = '|' ∨ c = '^' ∨ c = '$' ∨ c = '*' ∨ c = '+' ∨ c = '?' ∨ c = '{' ∨
        c = '}' ∨ c = ']' then none
    else
      let atomRes : Option (Regex × JStr) :=
        if c = '(' then
          let body : Option JStr :=
            match rest with
            | '?' :: ':' :: rest₂ => some rest₂
            | '?' :: _ => none
            | _ => some rest
          match body with
          | none => none
          | some rest₂ =>
            match parseSeq fuel rest₂ with
            | some (r, ')' :: rest₃) => some (r, rest₃)
            | _ => none
        else if c = '[' then parseClass rest
        else if c = '\\' then
          match rest with
          | d :: rest₂ => if d.isAlphanum then none else some (.atom (.lit d), rest₂)
          | [] => none
        else if c = '.' then some (.atom .dotAny, rest)
        else some (.atom (.lit c), rest)
      match atomRes with
      | none => none
      | some (r, rest') =>
        match rest' with
        | '*' :: t =>
          match parseSeq fuel t with
          | some (rs, restF) => some (.seq (Regex.star r) rs, restF)
          | none => none
        | '+' :: t =>
          match parseSeq fuel t with
          | some (rs, restF) => some (.seq (Regex.plus r) rs, restF)
          | none => none
        | '?' :: t =>
          match parseSeq fuel t with
          | some (rs, restF) => some (.seq (Regex.opt r) rs, restF)
          | none => none
        | _ =>
          match parseSeq fuel rest' with
          | some (rs, restF) => some (.seq r rs, restF)
          | none => none

/-- Model of `new RegExp(p)` for the anchored patterns the middleware code
constructs (always `"^" + s + "$"`): parse the body between the anchors;
`none` models construction failure (or a construct outside the modelled
fragment, treated conservatively as failure). -/
def compileRegex (p : JStr) : Option Regex :=
  match p with
  | '^' :: rest =>
    if rest.getLast? = some '$' then
      match parseSeq rest.length rest.dropLast with
      | some (r, []) => some r
      | _ => none
    else none
  | _ => none

/-- Embedding of `__safeRegExp(pattern)` (middleware-codegen.ts lines 83-89;
identical to `safeRegExp` of config-matchers.ts per the codegen module):
`null` when the scanner rejects the pattern, otherwise `new RegExp`, whose
construction failure also yields `null`; the `console.warn` diagnostic is a
side effect with no bearing on the result, and the `flags` argument is never
passed by the matcher. -/
def safeRegExp (p : JStr) : Option Regex :=
  if isSafeRegex p then compileRegex p else none

/-! ### middleware.ts: matchPattern -/

/-- `\w` or `-`: the characters allowed in a template parameter name
(`[\w-]` in the token regex; parameter names may contain hyphens). -/
def isWordDash (c : Char) : Bool :=
  c.isAlphanum || c = '_' || c = '-'

/-- The single-pass tokenizer of `matchPattern` (middleware.ts lines
178-199): the JavaScript token regex
`\/:([\w-]+)\*|\/:([\w-]+)\+|:([\w-]+)|[.]|[^/:.]+|.` applied left-to-right
by `exec`, emitting `(?:/.*)?` for `/:name*`, `(?:/.+)` for `/:name+`,
`([^/]+)` for `:name`, `\.` for a literal dot and everything else verbatim
(a `/` or lone `:` is consumed by the final any-character alternative, a run
of other characters by `[^/:.]+`).  Every iteration consumes at least one
character, so the pattern length serves as structural fuel. -/
def tokenizeFuel : Nat → JStr → JStr
  | 0, _ => []
  | _ + 1, [] => []
  | fuel + 1, '/' :: ':' :: rest =>
    if rest.takeWhile isWordDash ≠ [] then
      match rest.dropWhile isWordDash with
      | '*' :: rest₂ => "(?:/.*)?".toList ++ tokenizeFuel fuel rest₂
      | '+' :: rest₂ => "(?:/.+)".toList ++ tokenizeFuel fuel rest₂
      | _ => '/' :: tokenizeFuel fuel (':' :: rest)
    else '/' :: tokenizeFuel fuel (':' :: rest)
  | fuel + 1, ':' :: rest =>
    if rest.takeWhile isWordDash ≠ [] then
      "([^/]+)".toList ++ tokenizeFuel fuel (rest.dropWhile isWordDash)
    else ':' :: tokenizeFuel fuel rest
  | fuel + 1, '.' :: rest => '\\' :: '.' :: tokenizeFuel fuel rest
  | fuel + 1, c :: rest =>
    if c = '/' then '/' :: tokenizeFuel fuel rest
    else
      (c :: rest.takeWhile (fun d => decide (d ≠ '/' ∧ d ≠ ':' ∧ d ≠ '.'))) ++
        tokenizeFuel fuel (rest.dropWhile (fun d => decide (d ≠ '/' ∧ d ≠ ':' ∧ d ≠ '.')))

/-- The constructed template regex source (`regexStr`) for a pattern. -/
def tokenize (pattern : JStr) : JStr :=
  tokenizeFuel pattern.length pattern

/-- The token-branch tail of `matchPattern` (middleware.ts lines 178-203):
build the template regex and test it, falling back to exact string equality
when the constructed regex is rejected or fails to compile. -/
def tokenBranch (pathname pattern : JStr) : Bool :=
  match safeRegExp ('^' :: tokenize pattern ++ ['$']) with
  | some re => rtest re pathname
  | none => decide (pathname = pattern)

/-- Embedding of `matchPattern(pathname, pattern)` (middleware.ts lines
170-204; identical by construction to `matchMiddlewarePattern` in
middleware-codegen.ts lines 152-174): a pattern containing `(` or `\` is
tried as a raw anchored regex first, falling through to the template branch
when the safe compiler rejects it. -/
def matchPattern (pathname pattern : JStr) : Bool :=
  if '(' ∈ pattern ∨ '\\' ∈ pattern then
    match safeRegExp ('^' :: pattern ++ ['$']) with
    | some re => rtest re pathname
    | none => tokenBranch pathname pattern
  else tokenBranch pathname pattern

example : tokenize "/posts/:id".toList = "/posts/([^/]+)".toList := by decide
example : tokenize "/docs/:slug+".toList = "/docs(?:/.+)".toList := by decide
example : tokenize "/optional/:path*".toList = "/optional(?:/.*)?".toList := by decide
example : matchPattern "/posts/42".toList "/posts/:id".toList = true := by decide
example : matchPattern "/posts/1/2".toList "/posts/:id".toList = false := by decide
example : matchPattern "/docs".toList "/docs/:slug+".toList = false := by decide
example : matchPattern "/docs/a/b".toList "/docs/:slug+".toList = true := by decide
example : matchPattern "/optional".toList "/optional/:path*".toList = true := by decide
example : matchPattern "/optional/a/b".toList "/optional/:path*".toList = true := by decide
example : matchPattern "/u/42".toList "/u/:user-id".toList = true := by decide
example : matchPattern "/about".toList "/about".toList = true := by decide
example : matchPattern "/aboutx".toList "/about".toList = false := by decide
example : matchPattern "(a+)+x".toList "(a+)+x".toList = true := by decide

/-- C6: path-template token semantics of `matchPattern`: `:name` matches
exactly one segment, `/:name+` requires one or more segments, `/:name*`
matches zero or more segments, and hyphenated parameter names work. -/
theorem matchPattern_template_semantics :
    matchPattern "/posts/42".toList "/posts/:id".toList = true ∧
    matchPattern "/posts/1/2".toList "/posts/:id".toList = false ∧
    matchPattern "/docs".toList "/docs/:slug+".toList = false ∧
    matchPattern "/docs/a/b".toList "/docs/:slug+".toList = true ∧
    matchPattern "/optional".toList "/optional/:path*".toList = true ∧
    matchPattern "/optional/a/b".toList "/optional/:path*".toList = true ∧
    matchPattern "/u/42".toList "/u/:user-id".toList = true ∧
    matchPattern "/u/a/b".toList "/u/:user-id".toList = false := by
  refine ⟨by decide, by decide, by decide, by decide, by decide, by decide,
    by decide, by decide⟩

/-- C1 counterexample: the pattern `"(a+)+x"` is rejected by the safe regex
compiler (`safeRegExp "^(a+)+x$" = null`), yet `matchPattern` on the pathname
equal to the pattern string returns `true` via the documented string-equality
fallback of the template branch — not `false`. -/
theorem matchPattern_rejected_can_match :
    isSafeRegex ('^' :: "(a+)+x".toList ++ ['$']) = false ∧
    safeRegExp ('^' :: "(a+)+x".toList ++ ['$']) = none ∧
    matchPattern "(a+)+x".toList "(a+)+x".toList = true := by
  refine ⟨by decide, by decide, by decide⟩

/-- C1 (amended): for every pattern rejected by the safe regex compiler and
every pathname, `matchPattern` never executes the rejected regex — the
raw-regex branch observes `null` and the result is exactly that of the
template-tokenization fallback branch (total, hence never throwing); it is
not unconditionally `false`. -/
theorem matchPattern_rejected_falls_through (pathname pattern : JStr)
    (h : isSafeRegex ('^' :: pattern ++ ['$']) = false) :
    safeRegExp ('^' :: pattern ++ ['$']) = none ∧
    matchPattern pathname pattern = tokenBranch pathname pattern := by
  have hn : safeRegExp ('^' :: pattern ++ ['$']) = none := by
    unfold safeRegExp
    rw [h]
    rfl
  refine ⟨hn, ?_⟩
  rw [matchPattern]
  split
  · rw [hn]
  · rfl

/-- Witness for `matchPattern_rejected_falls_through` at pattern `"(a+)+"` and
pathname `"/x"`. -/
theorem matchPattern_rejected_falls_through_witness :
    isSafeRegex ('^' :: "(a+)+".toList ++ ['$']) = false ∧
    matchPattern "/x".toList "(a+)+".toList = tokenBranch "/x".toList "(a+)+".toList :=
  ⟨by decide,
    (matchPattern_rejected_falls_through "/x".toList "(a+)+".toList (by decide)).2⟩

/-! ### C2: rejection of the nested-quantifier shape -/

theorem scan_paren_prev_irrel (fuel : Nat) (arr : List Bool) (depth : Nat)
    (p₁ p₂ : Option Char) (rest : JStr) :
    isSafeRegexFuel fuel arr depth p₁ ('(' :: rest) =
    isSafeRegexFuel fuel arr depth p₂ ('(' :: rest) := by
  cases fuel with
  | zero => rfl
  | succ f => simp [isSafeRegexFuel]

theorem scan_close_prev_irrel (fuel : Nat) (arr : List Bool) (depth : Nat)
    (p₁ p₂ : Option Char) (rest : JStr) :
    isSafeRegexFuel fuel arr depth p₁ (')' :: rest) =
    isSafeRegexFuel fuel arr depth p₂ (')' :: rest) := by
  cases fuel with
  | zero => rfl
  | succ f => simp [isSafeRegexFuel]

theorem scan_paren_step (fuel : Nat) (arr : List Bool) (depth : Nat)
    (prev : Option Char) (rest : JStr) :
    isSafeRegexFuel (fuel + 1) arr depth prev ('(' :: rest) =
    isSafeRegexFuel fuel
      (if arr.length ≤ depth + 1 then arr ++ [false] else jsSet arr (depth + 1) false)
      (depth + 1) (some '(') rest := by
  simp [isSafeRegexFuel]

theorem scan_close_reject (fuel : Nat) (q : Char) (w : JStr)
    (hq : q = '+' ∨ q = '*' ∨ q = '{') :
    isSafeRegexFuel (fuel + 1) [false, true] 1 none (')' :: q :: w) = false := by
  rcases hq with rfl | rfl | rfl <;> simp [isSafeRegexFuel, jsGet]

theorem scan_neutral_run :
    ∀ u : JStr, (∀ c ∈ u, c ≠ '\\' ∧ c ≠ '[' ∧ c ≠ '(' ∧ c ≠ '{') →
    ∀ fuel prev rest,
      isSafeRegexFuel (u.length + fuel) [] 0 prev (u ++ '(' :: rest) =
      isSafeRegexFuel fuel [] 0 none ('(' :: rest) := by
  intro u
  induction u with
  | nil =>
    intro _ fuel prev rest
    simpa using scan_paren_prev_irrel fuel [] 0 prev none rest
  | cons c u' ih =>
    intro hu fuel prev rest
    obtain ⟨h1, h2, h3, h4⟩ := hu c (List.mem_cons_self _ _)
    have hu' := fun x hx => hu x (List.mem_cons_of_mem c hx)
    have hlen : (c :: u').length + fuel = (u'.length + fuel) + 1 := by
      simp only [List.length_cons]
      omega
    rw [hlen, List.cons_append]
    simp only [isSafeRegexFuel]
    rw [if_neg h1, if_neg h2, if_neg h3]
    have e1 : (decide (0 < 0) && jsGet ([] : List Bool) 0) = false := rfl
    have e2 : (if (0 : Nat) - 1 < List.length ([] : List Bool)
        then ([] : List Bool).set (0 - 1) true else ([] : List Bool)) = [] := rfl
    have e3 : (if (0 : Nat) < 0 then jsSet [] 0 true else ([] : List Bool)) = [] := rfl
    simp only [e1, e2, e3, Nat.zero_sub, Bool.false_eq_true, if_false]
    split_ifs <;> exact ih hu' fuel _ rest

/-- The `quantifierAtDepth` array states reachable while scanning a top-level
group body: `[false]` before a quantifier fires at depth 1, `[false, true]`
after. -/
def qArr (b : Bool) : List Bool :=
  if b then [false, true] else [false]

theorem scan_body :
    ∀ v : JStr, (∀ c ∈ v, c ≠ '\\' ∧ c ≠ '[' ∧ c ≠ '(' ∧ c ≠ ')' ∧ c ≠ '{') →
    ∀ fuel b prev rest,
      ∃ b' : Bool, (b = true → b' = true) ∧ (('+' ∈ v ∨ '*' ∈ v) → b' = true) ∧
        isSafeRegexFuel (v.length + fuel) (qArr b) 1 prev (v ++ ')' :: rest) =
        isSafeRegexFuel fuel (qArr b') 1 none (')' :: rest) := by
  intro v
  induction v with
  | nil =>
    intro _ fuel b prev rest
    refine ⟨b, fun h => h, fun h => ?_, ?_⟩
    · rcases h with h | h <;> simp at h
    · simpa using scan_close_prev_irrel fuel (qArr b) 1 prev none rest
  | cons c v' ih =>
    intro hv fuel b prev rest
    obtain ⟨h1, h2, h3, h4, h5⟩ := hv c (List.mem_cons_self _ _)
    have hv' := fun x hx => hv x (List.mem_cons_of_mem c hx)
    have hlen : (c :: v').length + fuel = (v'.length + fuel) + 1 := by
      simp only [List.length_cons]
      omega
    rw [hlen, List.cons_append]
    simp only [isSafeRegexFuel]
    rw [if_neg h1, if_neg h2, if_neg h3, if_neg h4]
    have harr : (if 0 < 1 then jsSet (qArr b) 1 true else qArr b) = qArr true := by
      cases b <;> rfl
    by_cases hps : c = '+' ∨ c = '*'
    · rw [if_pos hps, harr]
      obtain ⟨b', hb1, hb2, heq⟩ := ih hv' fuel true (some c) rest
      exact ⟨b', fun _ => hb1 rfl, fun _ => hb1 rfl, heq⟩
    · rw [if_neg hps]
      have hmem : ∀ b' : Bool, (('+' ∈ v' ∨ '*' ∈ v') → b' = true) →
          (('+' ∈ c :: v' ∨ '*' ∈ c :: v') → b' = true) := by
        intro b' hb hm
        apply hb
        rcases hm with hm | hm
        · rcases List.mem_cons.mp hm with he | hm'
          · exact absurd (Or.inl he.symm) hps
          · exact Or.inl hm'
        · rcases List.mem_cons.mp hm with he | hm'
          · exact absurd (Or.inr he.symm) hps
          · exact Or.inr hm'
      by_cases hq : c = '?'
      · rw [if_pos hq]
        by_cases hfire : prev ≠ some '+' ∧ prev ≠ some '*' ∧ prev ≠ some '?' ∧
            prev ≠ some '}'
        · rw [if_pos hfire, harr]
          obtain ⟨b', hb1, hb2, heq⟩ := ih hv' fuel true (some '?') rest
          exact ⟨b', fun _ => hb1 rfl, fun _ => hb1 rfl, heq⟩
        · rw [if_neg hfire]
          obtain ⟨b', hb1, hb2, heq⟩ := ih hv' fuel b (some '?') rest
          exact ⟨b', hb1, hmem b' hb2, heq⟩
      · rw [if_neg hq, if_neg h5]
        obtain ⟨b', hb1, hb2, heq⟩ := ih hv' fuel b (some c) rest
        exact ⟨b', hb1, hmem b' hb2, heq⟩

/-- C2: `__isSafeRegex` rejects every pattern of the nested-quantifier shape
(an arbitrary scanning-neutral prefix, a group whose body contains a `+` or
`*` quantifier, closed by `)` immediately followed by `+`, `*`, or `{`), and
`__safeRegExp` returns `null` for every pattern the scanner rejects and for
every pattern whose native `RegExp` construction fails; both are total
functions, hence never throw. -/
theorem isSafeRegex_nested_quantifier_rejected :
    (∀ (u v w : JStr) (q : Char),
      (∀ c ∈ u, c ≠ '\\' ∧ c ≠ '[' ∧ c ≠ '(' ∧ c ≠ '{') →
      (∀ c ∈ v, c ≠ '\\' ∧ c ≠ '[' ∧ c ≠ '(' ∧ c ≠ ')' ∧ c ≠ '{') →
      ('+' ∈ v ∨ '*' ∈ v) → (q = '+' ∨ q = '*' ∨ q = '{') →
      isSafeRegex (u ++ '(' :: (v ++ ')' :: q :: w)) = false) ∧
    (∀ p : JStr, isSafeRegex p = false → safeRegExp p = none) ∧
    (∀ p : JStr, compileRegex p = none → safeRegExp p = none) := by
  refine ⟨?_, ?_, ?_⟩
  · intro u v w q hu hv hquant hq
    rw [isSafeRegex]
    have hlen : (u ++ '(' :: (v ++ ')' :: q :: w)).length =
        u.length + ((v.length + (w.length + 1 + 1)) + 1) := by
      simp only [List.length_append, List.length_cons]
    rw [hlen]
    rw [scan_neutral_run u hu ((v.length + (w.length + 1 + 1)) + 1) none
      (v ++ ')' :: q :: w)]
    rw [scan_paren_step]
    have harr : (if List.length ([] : List Bool) ≤ 0 + 1 then ([] : List Bool) ++ [false]
        else jsSet [] (0 + 1) false) = qArr false := rfl
    rw [harr]
    obtain ⟨b', hb1, hb2, heq⟩ := scan_body v hv (w.length + 1 + 1) false (some '(')
      (q :: w)
    rw [heq, hb2 hquant]
    exact scan_close_reject (w.length + 1) q w hq
  · intro p h
    unfold safeRegExp
    rw [h]
    rfl
  · intro p h
    unfold safeRegExp
    split
    · exact h
    · rfl

/-- Witness for `isSafeRegex_nested_quantifier_rejected` at `"(a+)+"` (empty
prefix and suffix, body `"a+"`, closing quantifier `+`) and, for the
`safeRegExp` parts, at the rejected pattern `"(a+)+"` and the
construction-failing pattern `"("`. -/
theorem isSafeRegex_nested_quantifier_rejected_witness :
    isSafeRegex ([] ++ '(' :: ("a+".toList ++ ')' :: '+' :: [])) = false ∧
    safeRegExp "(a+)+".toList = none ∧
    safeRegExp "(".toList = none :=
  ⟨isSafeRegex_nested_quantifier_rejected.1 [] "a+".toList [] '+'
      (by decide) (by decide) (by decide) (by decide),
    isSafeRegex_nested_quantifier_rejected.2.1 "(a+)+".toList (by decide),
    isSafeRegex_nested_quantifier_rejected.2.2 "(".toList (by decide)⟩

/-! ### middleware.ts: matcher config and matchesMiddleware -/

/-- An entry of a `config.matcher` array (middleware.ts lines 126-129,
149-157): a string, an object (which contributes its `source` exactly when
the property is present), or a value that is neither (`null`, a number, ...),
which contributes nothing. -/
inductive MatcherEntry where
  | str (s : JStr)
  | obj (hasSource : Bool) (source : JStr)
  | nullish
  | otherVal
deriving DecidableEq

/-- The `config.matcher` export value: a string, an array of entries, or some
other truthy value (which yields no patterns). -/
inductive MatcherConfig where
  | str (s : JStr)
  | arr (entries : List MatcherEntry)
  | other
deriving DecidableEq

/-- JavaScript falsiness of the matcher value (`if (!matcher) return true`):
`undefined`/`null` (modelled `none`) and the empty string are falsy; an array
— even an empty one — is truthy. -/
def matcherFalsy : Option MatcherConfig → Bool
  | none => true
  | some (.str s) => s.isEmpty
  | some _ => false

/-- The patterns collected from a truthy matcher (middleware.ts lines
146-157): a string matcher contributes itself; an array contributes its
string entries and the `source` of its objects that have one. -/
def matcherPatterns : MatcherConfig → List JStr
  | .str s => [s]
  | .arr es =>
    es.filterMap fun e =>
      match e with
      | .str s => some s
      | .obj true src => some src
      | _ => none
  | .other => []

/-- Embedding of `matchesMiddleware(pathname, matcher)` (middleware.ts lines
136-160; identical to the codegen copy, middleware-codegen.ts lines
176-189). -/
def matchesMiddleware (pathname : JStr) (matcher : Option MatcherConfig) : Bool :=
  if matcherFalsy matcher then true
  else
    match matcher with
    | none => true
    | some m => (matcherPatterns m).any fun pattern => matchPattern pathname pattern

/-- C10: `matchesMiddleware` distinguishes an absent matcher (middleware runs
on every path) from an empty matcher array (no path matches), and an array
entry that is neither a string nor an object carrying a `source` property
contributes no pattern. -/
theorem matchesMiddleware_absent_vs_empty :
    (∀ p : JStr, matchesMiddleware p none = true) ∧
    (∀ p : JStr, matchesMiddleware p (some (.arr [])) = false) ∧
    (∀ (p : JStr) (e : MatcherEntry) (es : List MatcherEntry),
      (e = .nullish ∨ e = .otherVal ∨ ∃ s, e = .obj false s) →
      matchesMiddleware p (some (.arr (e :: es))) =
      matchesMiddleware p (some (.arr es))) := by
  refine ⟨fun p => rfl, fun p => rfl, ?_⟩
  intro p e es he
  rcases he with rfl | rfl | ⟨s, rfl⟩ <;> rfl

/-- Witness for `matchesMiddleware_absent_vs_empty` with a `null` entry in
front of a string entry. -/
theorem matchesMiddleware_absent_vs_empty_witness :
    matchesMiddleware "/a".toList (some (.arr [.nullish, .str "/a".toList])) =
      matchesMiddleware "/a".toList (some (.arr [.str "/a".toList])) :=
  matchesMiddleware_absent_vs_empty.2.2 "/a".toList .nullish [.str "/a".toList]
    (Or.inl rfl)

/-! ### middleware.ts: the runner and its directive interpretation -/

/-- An HTTP response as the middleware runner observes it.  Iterating web
`Headers` yields lower-cased names, so names are stored lower-cased as
iteration order pairs; `get` is case-insensitive in the platform, which the
code leans on only for `"Location"`, modelled by its explicit
`get("Location") ?? get("location")` double lookup. -/
structure JsResponse where
  status : Nat
  body : String
  headers : List (String × String)
deriving DecidableEq

/-- `Headers.get(name)`: `null` when the name is absent, otherwise the
comma-joined values for the name. -/
def hGet (headers : List (String × String)) (name : String) : Option String :=
  match (headers.filter fun kv => kv.1 == name).map (fun kv => kv.2) with
  | [] => none
  | vs => some (String.intercalate ", " vs)

/-- Embedding of the `MiddlewareResult` interface (middleware.ts lines
206-222). -/
structure MiddlewareResult where
  cont : Bool
  redirectUrl : Option String := none
  redirectStatus : Option Nat := none
  rewriteUrl : Option String := none
  rewriteStatus : Option Nat := none
  responseHeaders : Option (List (String × String)) := none
  response : Option JsResponse := none
deriving DecidableEq

/-- A thrown JavaScript error: its optional `message` property and its
`String(e)` rendering (the code uses `e?.message ?? String(e)`). -/
structure JsError where
  message? : Option String
  asString : String

/-- Interpretation of the middleware's returned `Response` (middleware.ts
lines 300-354).  `resolveRewrite` stands for the WHATWG URL parser used in
`new URL(rewriteUrl, request.url)` followed by `pathname + search` (a
platform collaborator); `none` models a parse failure, which the code
catches by keeping the raw header value. -/
def interpretMiddlewareResponse (resolveRewrite : String → Option String)
    (response : JsResponse) : MiddlewareResult :=
  if hGet response.headers "x-middleware-next" = some "1" then
    { cont := true,
      responseHeaders := some (response.headers.filter fun kv =>
        kv.1 != "x-middleware-next" && kv.1 != "x-middleware-rewrite") }
  else
    let location := ((hGet response.headers "Location").orElse
      fun _ => hGet response.headers "location").getD ""
    if 300 ≤ response.status ∧ response.status < 400 ∧ location ≠ "" then
      { cont := false, redirectUrl := some location,
        redirectStatus := some response.status }
    else
      let rewriteUrl := (hGet response.headers "x-middleware-rewrite").getD ""
      if rewriteUrl ≠ "" then
        { cont := true,
          rewriteUrl := some ((resolveRewrite rewriteUrl).getD rewriteUrl),
          rewriteStatus := if response.status ≠ 200 then some response.status else none,
          responseHeaders := some (response.headers.filter fun kv =>
            kv.1 != "x-middleware-rewrite") }
      else { cont := false, response := some response }

/-- Embedding of the per-request logic of `runMiddleware` (middleware.ts
lines 246-354), after module loading and handler resolution (which are
loader collaborators and throw fatal configuration errors before any of this
runs).  `env` is `process.env.NODE_ENV`; `decoded` is the outcome of
`decodeURIComponent(url.pathname)` (`none` models a thrown `URIError` on
malformed percent-encoding); `handler` is the resolved middleware function
applied to the request carrying the normalised pathname, with `Except.error`
modelling a throw or rejection and `none` no response. -/
def runMiddleware (env : String) (decoded : Option JStr)
    (matcher : Option MatcherConfig)
    (handler : JStr → Except JsError (Option JsResponse))
    (resolveRewrite : String → Option String) : MiddlewareResult :=
  match decoded with
  | none => { cont := false, response := some ⟨400, "Bad Request", []⟩ }
  | some decodedPathname =>
    let normalizedPathname := normalizePath decodedPathname
    if matchesMiddleware normalizedPathname matcher = false then { cont := true }
    else
      match handler normalizedPathname with
      | .error e =>
        { cont := false,
          response := some ⟨500,
            if env = "production" then "Internal Server Error"
            else "Middleware Error: " ++ ((e.message?).getD e.asString), []⟩ }
      | .ok none => { cont := true }
      | .ok (some response) => interpretMiddlewareResponse resolveRewrite response

/-- C7: `runMiddleware` converts per-request failures into error directives
and never lets an error mean "continue": malformed percent-encoding yields a
non-continue 400 "Bad Request" response for every environment, matcher and
handler; a throwing or rejecting handler on a matched path yields a
non-continue 500 response whose body is the generic message exactly when
`NODE_ENV` is `"production"` and carries the error text otherwise. -/
theorem runMiddleware_error_directives :
    (∀ (env : String) (matcher : Option MatcherConfig)
        (handler : JStr → Except JsError (Option JsResponse))
        (rr : String → Option String),
      runMiddleware env none matcher handler rr =
        { cont := false, response := some ⟨400, "Bad Request", []⟩ }) ∧
    (∀ (env : String) (decoded : JStr) (matcher : Option MatcherConfig)
        (e : JsError) (rr : String → Option String),
      matchesMiddleware (normalizePath decoded) matcher = true →
      runMiddleware env (some decoded) matcher (fun _ => .error e) rr =
        { cont := false,
          response := some ⟨500,
            if env = "production" then "Internal Server Error"
            else "Middleware Error: " ++ ((e.message?).getD e.asString), []⟩ }) := by
  refine ⟨fun env matcher handler rr => rfl, ?_⟩
  intro env decoded matcher e rr hmatch
  unfold runMiddleware
  simp [hmatch]

/-- Witness for `runMiddleware_error_directives` in production with a
throwing handler on pathname `"/x"` and no matcher. -/
theorem runMiddleware_error_directives_witness :
    matchesMiddleware (normalizePath "/x".toList) none = true ∧
    runMiddleware "production" (some "/x".toList) none
        (fun _ => .error ⟨none, "boom"⟩) (fun _ => none) =
      { cont := false, response := some ⟨500, "Internal Server Error", []⟩ } := by
  refine ⟨by decide, ?_⟩
  have h := runMiddleware_error_directives.2 "production" "/x".toList none
    ⟨none, "boom"⟩ (fun _ => none) (by decide)
  rw [h]
  rfl

/-- C8 counterexample: a response carrying `x-middleware-rewrite` together
with an `x-middleware-next` header whose value is not `"1"` is interpreted
as a rewrite directive, and the rewrite branch strips only
`x-middleware-rewrite` — the sentinel-named `x-middleware-next` header
survives into the forwarded `responseHeaders`, contrary to the claim that
neither sentinel ever appears in the forwarded set. -/
theorem rewrite_forwards_next_sentinel :
    (interpretMiddlewareResponse (fun _ => none)
        ⟨200, "", [("x-middleware-next", "0"), ("x-middleware-rewrite", "/x"),
          ("set-cookie", "a=1")]⟩).responseHeaders =
      some [("x-middleware-next", "0"), ("set-cookie", "a=1")] ∧
    (interpretMiddlewareResponse (fun _ => none)
        ⟨200, "", [("x-middleware-next", "0"), ("x-middleware-rewrite", "/x"),
          ("set-cookie", "a=1")]⟩).cont = true ∧
    (interpretMiddlewareResponse (fun _ => none)
        ⟨200, "", [("x-middleware-next", "0"), ("x-middleware-rewrite", "/x"),
          ("set-cookie", "a=1")]⟩).rewriteUrl = some "/x" := by
  refine ⟨by decide, by decide, by decide⟩

/-- C8 (amended): a continue directive (`x-middleware-next: 1`) forwards
exactly the response headers minus both sentinel headers; a rewrite
directive forwards exactly the response headers minus `x-middleware-rewrite`
only — each surviving key/value pair unchanged and in order, membership
characterised accordingly.  So `x-middleware-rewrite` never appears in a
forwarded set, and `x-middleware-next` never appears for a continue
directive, but a rewrite directive does forward an `x-middleware-next`
header when one is present with a value other than `"1"`. -/
theorem middleware_header_forwarding (rr : String → Option String)
    (resp : JsResponse) :
    (hGet resp.headers "x-middleware-next" = some "1" →
      (interpretMiddlewareResponse rr resp).cont = true ∧
      (interpretMiddlewareResponse rr resp).responseHeaders =
        some (resp.headers.filter fun kv =>
          kv.1 != "x-middleware-next" && kv.1 != "x-middleware-rewrite") ∧
      ∀ kv : String × String,
        kv ∈ (resp.headers.filter fun kv =>
          kv.1 != "x-middleware-next" && kv.1 != "x-middleware-rewrite") ↔
        kv ∈ resp.headers ∧ kv.1 ≠ "x-middleware-next" ∧
          kv.1 ≠ "x-middleware-rewrite") ∧
    (hGet resp.headers "x-middleware-next" ≠ some "1" →
      ¬(300 ≤ resp.status ∧ resp.status < 400 ∧
        ((hGet resp.headers "Location").orElse
          (fun _ => hGet resp.headers "location")).getD "" ≠ "") →
      (hGet resp.headers "x-middleware-rewrite").getD "" ≠ "" →
      (interpretMiddlewareResponse rr resp).cont = true ∧
      (interpretMiddlewareResponse rr resp).responseHeaders =
        some (resp.headers.filter fun kv => kv.1 != "x-middleware-rewrite") ∧
      ∀ kv : String × String,
        kv ∈ (resp.headers.filter fun kv => kv.1 != "x-middleware-rewrite") ↔
        kv ∈ resp.headers ∧ kv.1 ≠ "x-middleware-rewrite") := by
  constructor
  · intro hnext
    unfold interpretMiddlewareResponse
    rw [if_pos hnext]
    refine ⟨rfl, rfl, ?_⟩
    intro kv
    rw [List.mem_filter]
    simp [Bool.and_eq_true, bne_iff_ne]
  · intro hnext hloc hrw
    unfold interpretMiddlewareResponse
    rw [if_neg hnext, if_neg hloc, if_pos hrw]
    refine ⟨rfl, rfl, ?_⟩
    intro kv
    rw [List.mem_filter]
    simp [bne_iff_ne]

/-- Witness for `middleware_header_forwarding`: a continue response carrying
both sentinels and a cookie header, and a rewrite response carrying the
rewrite sentinel and a cookie header. -/
theorem middleware_header_forwarding_witness :
    (interpretMiddlewareResponse (fun _ => none)
        ⟨200, "", [("x-middleware-next", "1"), ("x-middleware-rewrite", "/r"),
          ("set-cookie", "a=1")]⟩).responseHeaders =
      some [("set-cookie", "a=1")] ∧
    (interpretMiddlewareResponse (fun _ => none)
        ⟨200, "", [("x-middleware-rewrite", "/r"), ("set-cookie", "a=1")]⟩).responseHeaders
      = some [("set-cookie", "a=1")] := by
  constructor
  · have h := (middleware_header_forwarding (fun _ => none)
      ⟨200, "", [("x-middleware-next", "1"), ("x-middleware-rewrite", "/r"),
        ("set-cookie", "a=1")]⟩).1 (by decide)
    rw [h.2.1]
    decide
  · have h := (middleware_header_forwarding (fun _ => none)
      ⟨200, "", [("x-middleware-rewrite", "/r"), ("set-cookie", "a=1")]⟩).2
      (by decide) (by decide) (by decide)
    rw [h.2.1]
    decide

/-! ### Worker entry guards -/

/-- Outcome of a worker fetch handler, as far as the guard logic decides it:
an own response, or delegation to a downstream handler with an argument. -/
inductive WorkerOutcome where
  | response (status : Nat) (body : String)
  | delegated (arg : JStr)
deriving DecidableEq

/-- `pathname.replaceAll("\\", "/")`: backslash-to-slash normalisation
(browsers treat `/\` as `//`). -/
def backslashToSlash (p : JStr) : JStr :=
  p.map fun c => if c = '\\' then '/' else c

/-- The guard prefix of the App Router worker `fetch` handler
(app-router-entry.ts lines 20-50): backslash normalisation, the
protocol-relative `//` rejection, percent-decoding (`decode`, a platform
collaborator with `none` modelling a thrown `URIError`), path normalisation,
then delegation to the RSC handler on the normalised pathname. -/
def appRouterFetch (decode : JStr → Option JStr) (rsc : JStr → WorkerOutcome)
    (urlPathname : JStr) : WorkerOutcome :=
  let rawPathname := backslashToSlash urlPathname
  if rawPathname.take 2 = ['/', '/'] then .response 404 "404 Not Found"
  else
    match decode rawPathname with
    | none => .response 400 "Bad Request"
    | some d => rsc (normalizePath d)

/-- The guard prefix of the Pages Router worker `fetch` handler (the Pages
worker entry module, lines 16-39): the protocol-relative `//` rejection on
the backslash-normalised pathname, then API-route or page-render dispatch on
`pathname + search`. -/
def pagesWorkerFetch (handleApi renderPage : JStr → WorkerOutcome)
    (urlPathname urlSearch : JStr) : WorkerOutcome :=
  if (backslashToSlash urlPathname).take 2 = ['/', '/'] then
    .response 404 "404 Not Found"
  else if urlPathname.take 5 = "/api/".toList ∨ urlPathname = "/api".toList then
    handleApi (urlPathname ++ urlSearch)
  else renderPage (urlPathname ++ urlSearch)

/-- C9: for every request whose URL pathname starts with `//` after
backslash→slash normalisation, both worker entries return 404 immediately —
uniformly in the decoder and every downstream handler (RSC, API dispatch,
page render), so middleware, routing and downstream handlers are never
invoked. -/
theorem worker_blocks_protocol_relative (urlPathname : JStr)
    (h : (backslashToSlash urlPathname).take 2 = ['/', '/']) :
    (∀ (decode : JStr → Option JStr) (rsc : JStr → WorkerOutcome),
      appRouterFetch decode rsc urlPathname = .response 404 "404 Not Found") ∧
    (∀ (handleApi renderPage : JStr → WorkerOutcome) (urlSearch : JStr),
      pagesWorkerFetch handleApi renderPage urlPathname urlSearch =
        .response 404 "404 Not Found") := by
  constructor
  · intro decode rsc
    simp [appRouterFetch, h]
  · intro handleApi renderPage urlSearch
    simp [pagesWorkerFetch, h]

/-- Witness for `worker_blocks_protocol_relative` at the open-redirect
payload `"/\evil.com/a"`. -/
theorem worker_blocks_protocol_relative_witness :
    (backslashToSlash "/\\evil.com/a".toList).take 2 = ['/', '/'] ∧
    appRouterFetch (fun p => some p) (fun p => .delegated p)
      "/\\evil.com/a".toList = .response 404 "404 Not Found" :=
  ⟨by decide,
    (worker_blocks_protocol_relative "/\\evil.com/a".toList (by decide)).1
      (fun p => some p) (fun p => .delegated p)⟩

end Vinext
